import Mathlib

/-!
# Verification of the MHTTF lineup generator core

Shallow embedding of the candidate-generation and lineup logic of
`app.py`.  Player ratings are half-point values (3.0, 3.5, 4.0, ...);
at these magnitudes Python float arithmetic (equality tests and sums of
two ratings) is exact, so ratings are modelled as rationals.
Python tuples of names become `List String`; selection values stored in
the interactive state may be a tuple or a bare string (`Sel`), mirroring
the two `isinstance` branches of `get_used_players` / `is_available`.
-/

namespace MHTTF

/-- A selection value as it may appear in `st.session_state.selected_lineup`:
either a tuple of player names or a bare player-name string. -/
inductive Sel where
  | tup : List String → Sel
  | str : String → Sel
deriving DecidableEq

/-- The players contributed by a selection value: a tuple contributes its
elements, a bare string contributes that single name. -/
def selPlayers : Sel → List String
  | .tup l => l
  | .str s => [s]

/-- The 8 fixed match slots. -/
inductive Slot where
  | S1 | S2 | S3 | D1 | D2 | D3 | D4 | D5
deriving DecidableEq

/-- The fixed slot order `["S1","S2","S3","D1","D2","D3","D4","D5"]`
used by `valid_lineups`. -/
def roundsList : List Slot := [.S1, .S2, .S3, .D1, .D2, .D3, .D4, .D5]

/-- A roster entry: `(player_name, player_rating)`. -/
abbrev Player := String × ℚ

-- ---- Eligibility rules (app.py lines 102-107) ----

/-- `def eligible_s1(r): return r in {4.0, 4.5}` -/
def eligible_s1 (r : ℚ) : Bool := decide (r = 4.0 ∨ r = 4.5)

/-- `def eligible_s2(r): return r in {3.0, 3.5}` -/
def eligible_s2 (r : ℚ) : Bool := decide (r = 3.0 ∨ r = 3.5)

/-- `def eligible_s3(r): return r == 3.0` -/
def eligible_s3 (r : ℚ) : Bool := decide (r = 3.0)

/-- `def eligible_d1(r1, r2): return r1 + r2 in {8.0, 8.5}` -/
def eligible_d1 (r1 r2 : ℚ) : Bool := decide (r1 + r2 = 8.0 ∨ r1 + r2 = 8.5)

/-- `def eligible_d2_d3(r1, r2): return r1 + r2 in {7.0, 7.5}` -/
def eligible_d2_d3 (r1 r2 : ℚ) : Bool := decide (r1 + r2 = 7.0 ∨ r1 + r2 = 7.5)

/-- `def eligible_d4_d5(r1, r2): return r1 + r2 in {6.0, 6.5}` -/
def eligible_d4_d5 (r1 r2 : ℚ) : Bool := decide (r1 + r2 = 6.0 ∨ r1 + r2 = 6.5)

/-- `itertools.combinations(l, 2)` in generation order: pairs `(x, y)` with
`x` before `y` in `l`, lower index first. -/
def combinations2 : List α → List (α × α)
  | [] => []
  | x :: xs => (xs.map fun y => (x, y)) ++ combinations2 xs

/-- The per-slot candidate lists returned by `generate_candidates`
(the Python dict with keys "S1".."D5"); each candidate is a name tuple. -/
structure CandSet where
  s1 : List (List String)
  s2 : List (List String)
  s3 : List (List String)
  d1 : List (List String)
  d2 : List (List String)
  d3 : List (List String)
  d4 : List (List String)
  d5 : List (List String)
deriving DecidableEq

/-- Dict lookup `candidates[r]`. -/
def CandSet.get (c : CandSet) : Slot → List (List String)
  | .S1 => c.s1
  | .S2 => c.s2
  | .S3 => c.s3
  | .D1 => c.d1
  | .D2 => c.d2
  | .D3 => c.d3
  | .D4 => c.d4
  | .D5 => c.d5

/-- The five doubles lists being built by the loop in `generate_candidates`. -/
structure Dubs where
  d1 : List (List String)
  d2 : List (List String)
  d3 : List (List String)
  d4 : List (List String)
  d5 : List (List String)
deriving DecidableEq

/-- One iteration of the loop
`for p1, p2 in itertools.combinations(singles, 2): ...` in
`generate_candidates`: the pair is appended to `d1` when `eligible_d1`
holds, to both `d2` and `d3` when `eligible_d2_d3` holds, and to both
`d4` and `d5` when `eligible_d4_d5` holds. -/
def doublesStep (acc : Dubs) (q : Player × Player) : Dubs :=
  let pair := [q.1.1, q.2.1]
  let acc1 := if eligible_d1 q.1.2 q.2.2 then { acc with d1 := acc.d1 ++ [pair] } else acc
  let acc2 := if eligible_d2_d3 q.1.2 q.2.2 then
      { acc1 with d2 := acc1.d2 ++ [pair], d3 := acc1.d3 ++ [pair] } else acc1
  if eligible_d4_d5 q.1.2 q.2.2 then
      { acc2 with d4 := acc2.d4 ++ [pair], d5 := acc2.d5 ++ [pair] } else acc2

/-- `generate_candidates(players)` (app.py lines 109-125): singles lists are
the roster filtered by the singles predicates, in roster order, as 1-tuples;
doubles lists are built by the loop over `combinations(singles, 2)`. -/
def generate_candidates (players : List Player) : CandSet :=
  let s1 := (players.filter fun p => eligible_s1 p.2).map fun p => [p.1]
  let s2 := (players.filter fun p => eligible_s2 p.2).map fun p => [p.1]
  let s3 := (players.filter fun p => eligible_s3 p.2).map fun p => [p.1]
  let ds := (combinations2 players).foldl doublesStep ⟨[], [], [], [], []⟩
  { s1 := s1, s2 := s2, s3 := s3,
    d1 := ds.d1, d2 := ds.d2, d3 := ds.d3, d4 := ds.d4, d5 := ds.d5 }

/-- The interactive state `st.session_state.selected_lineup`: a partial
mapping from slots to selection values (a missing dict key is `none`). -/
structure Assn where
  s1 : Option Sel
  s2 : Option Sel
  s3 : Option Sel
  d1 : Option Sel
  d2 : Option Sel
  d3 : Option Sel
  d4 : Option Sel
  d5 : Option Sel
deriving DecidableEq

/-- Dict lookup `selected_lineup.get(r)`. -/
def Assn.get (a : Assn) : Slot → Option Sel
  | .S1 => a.s1
  | .S2 => a.s2
  | .S3 => a.s3
  | .D1 => a.d1
  | .D2 => a.d2
  | .D3 => a.d3
  | .D4 => a.d4
  | .D5 => a.d5

/-- Dict update `selected_lineup[r] = v`. -/
def Assn.set (a : Assn) : Slot → Sel → Assn
  | .S1, v => { a with s1 := some v }
  | .S2, v => { a with s2 := some v }
  | .S3, v => { a with s3 := some v }
  | .D1, v => { a with d1 := some v }
  | .D2, v => { a with d2 := some v }
  | .D3, v => { a with d3 := some v }
  | .D4, v => { a with d4 := some v }
  | .D5, v => { a with d5 := some v }

/-- Dict deletion `del selected_lineup[r]`. -/
def Assn.erase (a : Assn) : Slot → Assn
  | .S1 => { a with s1 := none }
  | .S2 => { a with s2 := none }
  | .S3 => { a with s3 := none }
  | .D1 => { a with d1 := none }
  | .D2 => { a with d2 := none }
  | .D3 => { a with d3 := none }
  | .D4 => { a with d4 := none }
  | .D5 => { a with d5 := none }

/-- The empty dict `{}`. -/
def emptyAssn : Assn := ⟨none, none, none, none, none, none, none, none⟩

/-- One iteration of the loop in `get_used_players`: a stored tuple
contributes all its elements (`used.update(selection)`), a stored bare
string contributes itself (`used.add(selection)`), anything else nothing. -/
def usedStep (st : Assn) (used : Finset String) (r : Slot) : Finset String :=
  match st.get r with
  | some (Sel.tup l) => used ∪ l.toFinset
  | some (Sel.str s) => insert s used
  | none => used

/-- `get_used_players()` (app.py lines 177-184): iterate over the stored
selection values, collecting the contributed player names. -/
def get_used_players (st : Assn) : Finset String :=
  roundsList.foldl (usedStep st) ∅

/-- `is_available(option)` (app.py lines 187-191): a tuple is available iff
`not (set(option) & used_players)`; a bare string iff
`option not in used_players`. -/
def is_available (st : Assn) : Sel → Bool
  | .tup l => decide (l.toFinset ∩ get_used_players st = ∅)
  | .str s => decide (s ∉ get_used_players st)

/-- `available_options = [opt for opt in candidates[round_name] if is_available(opt)]`
(app.py line 626). -/
def available_options (cands : CandSet) (r : Slot) (st : Assn) : List (List String) :=
  (cands.get r).filter fun o => is_available st (Sel.tup o)

/-- The inner `backtrack(idx, used, current)` of `valid_lineups`
(app.py lines 131-143): check the result cap at call entry; at the last
index record a copy of the current assignment; otherwise try each candidate
of the current round whose player set is disjoint from `used`, assign it and
recurse on the remaining rounds.  The mutable Python `results` list is the
accumulator threaded through the fold. -/
def backtrack (cands : CandSet) (maxResults : Nat) :
    List Slot → Finset String → Assn → List Assn → List Assn
  | rounds, used, current, results =>
    if maxResults ≤ results.length then results
    else
      match rounds with
      | [] => results ++ [current]
      | r :: rest =>
        (cands.get r).foldl
          (fun acc option =>
            if option.toFinset ∩ used = ∅ then
              backtrack cands maxResults rest (used ∪ option.toFinset)
                (current.set r (Sel.tup option)) acc
            else acc)
          results

/-- `valid_lineups(candidates, max_results)` (app.py lines 127-145); the
source's default cap is `max_results=200`. -/
def valid_lineups (cands : CandSet) (maxResults : Nat) : List Assn :=
  backtrack cands maxResults roundsList ∅ emptyAssn []

/-- An interactive operation of the UI: clicking a candidate button of a
round's expander (app.py lines 626-651), the per-round "Clear" button
(lines 619-621), or the "Reset All Selections" button (lines 692-694). -/
inductive Op where
  | select (r : Slot) (o : List String)
  | clear (r : Slot)
  | reset

/-- One interactive step.  A `select` is effective only when the option is
one of the round's candidates and passes `is_available` (only then is its
button rendered, line 626); the click handler then deselects when the option
equals the round's current selection (`is_selected`, lines 635, 644-647) and
assigns it otherwise (lines 648-650).  `clear` deletes the round's entry
(the button is only rendered when the entry exists, lines 610, 619-621).
`reset` replaces the state by the empty dict. -/
def step (cands : CandSet) (st : Assn) : Op → Assn
  | .select r o =>
    if o ∈ cands.get r ∧ is_available st (Sel.tup o) = true then
      if st.get r = some (Sel.tup o) then st.erase r else st.set r (Sel.tup o)
    else st
  | .clear r => if (st.get r).isSome then st.erase r else st
  | .reset => emptyAssn

/-- Applying a sequence of interactive operations. -/
def applyOps (cands : CandSet) (ops : List Op) (st : Assn) : Assn :=
  ops.foldl (step cands) st

/-- The disjointness invariant on an interactive state: the player sets of
any two distinct assigned slots do not intersect. -/
def DisjointInv (st : Assn) : Prop :=
  ∀ r1 r2, r1 ≠ r2 → ∀ o1 o2, st.get r1 = some o1 → st.get r2 = some o2 →
    ∀ p, p ∈ selPlayers o1 → p ∉ selPlayers o2

-- ---- Basic lemmas about the state dictionary ----

lemma Assn.get_set (a : Assn) (r s : Slot) (v : Sel) :
    (a.set r v).get s = if s = r then some v else a.get s := by
  cases r <;> cases s <;> simp [Assn.set, Assn.get]

lemma Assn.get_erase (a : Assn) (r s : Slot) :
    (a.erase r).get s = if s = r then none else a.get s := by
  cases r <;> cases s <;> simp [Assn.erase, Assn.get]

lemma Assn.ext_get {a b : Assn} (h : ∀ s, a.get s = b.get s) : a = b := by
  cases a; cases b
  have h1 := h .S1; have h2 := h .S2; have h3 := h .S3; have h4 := h .D1
  have h5 := h .D2; have h6 := h .D3; have h7 := h .D4; have h8 := h .D5
  simp only [Assn.get] at h1 h2 h3 h4 h5 h6 h7 h8
  simp_all

lemma emptyAssn_get (r : Slot) : emptyAssn.get r = none := by
  cases r <;> rfl

lemma mem_roundsList (r : Slot) : r ∈ roundsList := by
  cases r <;> decide

-- ---- Characterization of the used-player set ----

lemma mem_usedStep (st : Assn) (init : Finset String) (r : Slot) (q : String) :
    q ∈ usedStep st init r ↔
      q ∈ init ∨ ∃ o, st.get r = some o ∧ q ∈ selPlayers o := by
  unfold usedStep
  cases hr : st.get r with
  | none => simp
  | some o => cases o <;> simp [selPlayers, or_comm]

lemma foldl_used_mem (st : Assn) (rs : List Slot) (init : Finset String) (p : String) :
    p ∈ rs.foldl (usedStep st) init ↔
      p ∈ init ∨ ∃ r ∈ rs, ∃ o, st.get r = some o ∧ p ∈ selPlayers o := by
  induction rs generalizing init with
  | nil => simp
  | cons r rs ih =>
    rw [List.foldl_cons, ih, mem_usedStep]
    simp only [List.mem_cons]
    constructor
    · rintro ((hp | ⟨o, ho, hpo⟩) | ⟨r', hr', o', ho', hpo'⟩)
      · exact Or.inl hp
      · exact Or.inr ⟨r, Or.inl rfl, o, ho, hpo⟩
      · exact Or.inr ⟨r', Or.inr hr', o', ho', hpo'⟩
    · rintro (hp | ⟨r', (rfl | hr'), o', ho', hpo'⟩)
      · exact Or.inl (Or.inl hp)
      · exact Or.inl (Or.inr ⟨o', ho', hpo'⟩)
      · exact Or.inr ⟨r', hr', o', ho', hpo'⟩

/-- A player is in `get_used_players` iff some slot's stored selection
contributes it. -/
lemma mem_get_used_players (st : Assn) (p : String) :
    p ∈ get_used_players st ↔ ∃ r o, st.get r = some o ∧ p ∈ selPlayers o := by
  unfold get_used_players
  rw [foldl_used_mem]
  simp only [Finset.not_mem_empty, false_or]
  constructor
  · rintro ⟨r, _, o, ho, hpo⟩; exact ⟨r, o, ho, hpo⟩
  · rintro ⟨r, o, ho, hpo⟩; exact ⟨r, mem_roundsList r, o, ho, hpo⟩

lemma used_of_assigned {st : Assn} {r : Slot} {o : Sel} {p : String}
    (ho : st.get r = some o) (hp : p ∈ selPlayers o) : p ∈ get_used_players st :=
  (mem_get_used_players st p).mpr ⟨r, o, ho, hp⟩

/-- `is_available` holds iff no player of the option is in the used set. -/
lemma is_available_iff (st : Assn) (o : Sel) :
    is_available st o = true ↔ ∀ p ∈ selPlayers o, p ∉ get_used_players st := by
  cases o with
  | tup l =>
    simp only [is_available, selPlayers, decide_eq_true_eq]
    rw [Finset.eq_empty_iff_forall_not_mem]
    constructor
    · intro h p hp hpu
      exact h p (Finset.mem_inter.mpr ⟨List.mem_toFinset.mpr hp, hpu⟩)
    · intro h p hp
      rcases Finset.mem_inter.mp hp with ⟨hpl, hpu⟩
      exact h p (List.mem_toFinset.mp hpl) hpu
  | str s => simp [is_available, selPlayers]

-- ---- Preservation of the disjointness invariant ----

lemma disjointInv_empty : DisjointInv emptyAssn := by
  intro r1 r2 _ o1 o2 h1 _
  rw [emptyAssn_get] at h1
  cases h1

lemma disjointInv_erase {st : Assn} (h : DisjointInv st) (r : Slot) :
    DisjointInv (st.erase r) := by
  intro r1 r2 hne o1 o2 h1 h2
  rw [Assn.get_erase] at h1 h2
  split_ifs at h1 h2
  exact h r1 r2 hne o1 o2 h1 h2

lemma disjointInv_set {st : Assn} (h : DisjointInv st) {r : Slot} {o : List String}
    (havail : is_available st (Sel.tup o) = true) :
    DisjointInv (st.set r (Sel.tup o)) := by
  have hav := (is_available_iff st (Sel.tup o)).mp havail
  intro r1 r2 hne o1 o2 h1 h2 p hp1 hp2
  rw [Assn.get_set] at h1 h2
  by_cases e1 : r1 = r <;> by_cases e2 : r2 = r
  · exact hne (e1.trans e2.symm)
  · rw [if_pos e1] at h1
    rw [if_neg e2] at h2
    cases h1
    exact hav p hp1 (used_of_assigned h2 hp2)
  · rw [if_neg e1] at h1
    rw [if_pos e2] at h2
    cases h2
    exact hav p hp2 (used_of_assigned h1 hp1)
  · rw [if_neg e1] at h1
    rw [if_neg e2] at h2
    exact h r1 r2 hne o1 o2 h1 h2 p hp1 hp2

lemma disjointInv_step (cands : CandSet) {st : Assn} (h : DisjointInv st) (op : Op) :
    DisjointInv (step cands st op) := by
  cases op with
  | select r o =>
    simp only [step]
    split_ifs with hg hs
    · exact disjointInv_erase h r
    · exact disjointInv_set h hg.2
    · exact h
  | clear r =>
    simp only [step]
    split_ifs
    · exact disjointInv_erase h r
    · exact h
  | reset => exact disjointInv_empty

lemma disjointInv_applyOps (cands : CandSet) (ops : List Op) {st : Assn}
    (h : DisjointInv st) : DisjointInv (applyOps cands ops st) := by
  induction ops generalizing st with
  | nil => exact h
  | cons op ops ih => exact ih (disjointInv_step cands h op)

-- ---- Lemmas about pair enumeration ----

lemma combinations2_map (f : α → β) (l : List α) :
    combinations2 (l.map f) = (combinations2 l).map fun q => (f q.1, f q.2) := by
  induction l with
  | nil => rfl
  | cons x xs ih =>
    simp [combinations2, ih, List.map_map, Function.comp_def]

lemma fst_mem_of_mem_combinations2 {l : List α} {q : α × α}
    (h : q ∈ combinations2 l) : q.1 ∈ l := by
  induction l with
  | nil => cases h
  | cons x xs ih =>
    simp only [combinations2, List.mem_append, List.mem_map] at h
    rcases h with ⟨y, _, rfl⟩ | h
    · exact List.mem_cons_self x xs
    · exact List.mem_cons_of_mem x (ih h)

lemma mem_of_mem_combinations2 {l : List α} {q : α × α}
    (h : q ∈ combinations2 l) : q.1 ∈ l ∧ q.2 ∈ l := by
  induction l with
  | nil => cases h
  | cons x xs ih =>
    simp only [combinations2, List.mem_append, List.mem_map] at h
    rcases h with ⟨y, hy, rfl⟩ | h
    · exact ⟨List.mem_cons_self x xs, List.mem_cons_of_mem x hy⟩
    · exact ⟨List.mem_cons_of_mem x (ih h).1, List.mem_cons_of_mem x (ih h).2⟩

lemma combinations2_nodup {l : List α} (h : l.Nodup) : (combinations2 l).Nodup := by
  induction l with
  | nil => exact List.nodup_nil
  | cons x xs ih =>
    rcases List.nodup_cons.mp h with ⟨hx, hxs⟩
    simp only [combinations2]
    refine List.Nodup.append ?_ (ih hxs) ?_
    · exact hxs.map fun a b hab => congrArg Prod.snd hab
    · intro q hq1 hq2
      rcases List.mem_map.mp hq1 with ⟨y, _, rfl⟩
      exact hx (fst_mem_of_mem_combinations2 hq2)

-- ---- Characterization of the doubles loop ----

lemma doublesStep_d1 (acc : Dubs) (q : Player × Player) :
    (doublesStep acc q).d1 =
      if eligible_d1 q.1.2 q.2.2 then acc.d1 ++ [[q.1.1, q.2.1]] else acc.d1 := by
  simp only [doublesStep]
  split_ifs <;> rfl

lemma doublesStep_d2 (acc : Dubs) (q : Player × Player) :
    (doublesStep acc q).d2 =
      if eligible_d2_d3 q.1.2 q.2.2 then acc.d2 ++ [[q.1.1, q.2.1]] else acc.d2 := by
  simp only [doublesStep]
  split_ifs <;> rfl

lemma doublesStep_d3 (acc : Dubs) (q : Player × Player) :
    (doublesStep acc q).d3 =
      if eligible_d2_d3 q.1.2 q.2.2 then acc.d3 ++ [[q.1.1, q.2.1]] else acc.d3 := by
  simp only [doublesStep]
  split_ifs <;> rfl

lemma doublesStep_d4 (acc : Dubs) (q : Player × Player) :
    (doublesStep acc q).d4 =
      if eligible_d4_d5 q.1.2 q.2.2 then acc.d4 ++ [[q.1.1, q.2.1]] else acc.d4 := by
  simp only [doublesStep]
  split_ifs <;> rfl

lemma doublesStep_d5 (acc : Dubs) (q : Player × Player) :
    (doublesStep acc q).d5 =
      if eligible_d4_d5 q.1.2 q.2.2 then acc.d5 ++ [[q.1.1, q.2.1]] else acc.d5 := by
  simp only [doublesStep]
  split_ifs <;> rfl

/-- The name tuple recorded for a pair of roster entries. -/
def pairNames (q : Player × Player) : List String := [q.1.1, q.2.1]

lemma foldl_doublesStep_d1 (l : List (Player × Player)) (acc : Dubs) :
    (l.foldl doublesStep acc).d1 =
      acc.d1 ++ (l.filter fun q => eligible_d1 q.1.2 q.2.2).map pairNames := by
  induction l generalizing acc with
  | nil => simp
  | cons q l ih =>
    rw [List.foldl_cons, ih, doublesStep_d1]
    by_cases hq : eligible_d1 q.1.2 q.2.2 <;>
      simp [hq, List.filter_cons, pairNames]

lemma foldl_doublesStep_d2 (l : List (Player × Player)) (acc : Dubs) :
    (l.foldl doublesStep acc).d2 =
      acc.d2 ++ (l.filter fun q => eligible_d2_d3 q.1.2 q.2.2).map pairNames := by
  induction l generalizing acc with
  | nil => simp
  | cons q l ih =>
    rw [List.foldl_cons, ih, doublesStep_d2]
    by_cases hq : eligible_d2_d3 q.1.2 q.2.2 <;>
      simp [hq, List.filter_cons, pairNames]

lemma foldl_doublesStep_d3 (l : List (Player × Player)) (acc : Dubs) :
    (l.foldl doublesStep acc).d3 =
      acc.d3 ++ (l.filter fun q => eligible_d2_d3 q.1.2 q.2.2).map pairNames := by
  induction l generalizing acc with
  | nil => simp
  | cons q l ih =>
    rw [List.foldl_cons, ih, doublesStep_d3]
    by_cases hq : eligible_d2_d3 q.1.2 q.2.2 <;>
      simp [hq, List.filter_cons, pairNames]

lemma foldl_doublesStep_d4 (l : List (Player × Player)) (acc : Dubs) :
    (l.foldl doublesStep acc).d4 =
      acc.d4 ++ (l.filter fun q => eligible_d4_d5 q.1.2 q.2.2).map pairNames := by
  induction l generalizing acc with
  | nil => simp
  | cons q l ih =>
    rw [List.foldl_cons, ih, doublesStep_d4]
    by_cases hq : eligible_d4_d5 q.1.2 q.2.2 <;>
      simp [hq, List.filter_cons, pairNames]

lemma foldl_doublesStep_d5 (l : List (Player × Player)) (acc : Dubs) :
    (l.foldl doublesStep acc).d5 =
      acc.d5 ++ (l.filter fun q => eligible_d4_d5 q.1.2 q.2.2).map pairNames := by
  induction l generalizing acc with
  | nil => simp
  | cons q l ih =>
    rw [List.foldl_cons, ih, doublesStep_d5]
    by_cases hq : eligible_d4_d5 q.1.2 q.2.2 <;>
      simp [hq, List.filter_cons, pairNames]

-- ---- Closed forms of the candidate lists ----

lemma generate_candidates_s1 (ps : List Player) :
    (generate_candidates ps).s1 =
      (ps.filter fun p => eligible_s1 p.2).map fun p => [p.1] := rfl

lemma generate_candidates_s2 (ps : List Player) :
    (generate_candidates ps).s2 =
      (ps.filter fun p => eligible_s2 p.2).map fun p => [p.1] := rfl

lemma generate_candidates_s3 (ps : List Player) :
    (generate_candidates ps).s3 =
      (ps.filter fun p => eligible_s3 p.2).map fun p => [p.1] := rfl

lemma generate_candidates_d1 (ps : List Player) :
    (generate_candidates ps).d1 =
      ((combinations2 ps).filter fun q => eligible_d1 q.1.2 q.2.2).map pairNames := by
  show ((combinations2 ps).foldl doublesStep ⟨[], [], [], [], []⟩).d1 = _
  rw [foldl_doublesStep_d1]
  rfl

lemma generate_candidates_d2 (ps : List Player) :
    (generate_candidates ps).d2 =
      ((combinations2 ps).filter fun q => eligible_d2_d3 q.1.2 q.2.2).map pairNames := by
  show ((combinations2 ps).foldl doublesStep ⟨[], [], [], [], []⟩).d2 = _
  rw [foldl_doublesStep_d2]
  rfl

lemma generate_candidates_d3 (ps : List Player) :
    (generate_candidates ps).d3 =
      ((combinations2 ps).filter fun q => eligible_d2_d3 q.1.2 q.2.2).map pairNames := by
  show ((combinations2 ps).foldl doublesStep ⟨[], [], [], [], []⟩).d3 = _
  rw [foldl_doublesStep_d3]
  rfl

lemma generate_candidates_d4 (ps : List Player) :
    (generate_candidates ps).d4 =
      ((combinations2 ps).filter fun q => eligible_d4_d5 q.1.2 q.2.2).map pairNames := by
  show ((combinations2 ps).foldl doublesStep ⟨[], [], [], [], []⟩).d4 = _
  rw [foldl_doublesStep_d4]
  rfl

lemma generate_candidates_d5 (ps : List Player) :
    (generate_candidates ps).d5 =
      ((combinations2 ps).filter fun q => eligible_d4_d5 q.1.2 q.2.2).map pairNames := by
  show ((combinations2 ps).foldl doublesStep ⟨[], [], [], [], []⟩).d5 = _
  rw [foldl_doublesStep_d5]
  rfl

-- ---- Lemmas about the exhaustive enumerator ----

lemma foldl_preserve {α γ : Type _} {P : γ → Prop} {f : γ → α → γ} {l : List α}
    (h : ∀ acc a, a ∈ l → P acc → P (f acc a)) :
    ∀ {acc}, P acc → P (l.foldl f acc) := by
  induction l with
  | nil => intro _ hacc; exact hacc
  | cons x xs ih =>
    intro acc hacc
    exact ih (fun acc a ha => h acc a (List.mem_cons_of_mem x ha))
      (h acc x (List.mem_cons_self x xs) hacc)

/-- Once the cap is reached, every call to `backtrack` returns its results
unchanged: the cap is tested at call entry, before any recursion. -/
lemma backtrack_capped (cands : CandSet) (maxr : Nat) (rounds : List Slot)
    (used : Finset String) (current : Assn) (results : List Assn)
    (h : maxr ≤ results.length) :
    backtrack cands maxr rounds used current results = results := by
  rw [backtrack.eq_def]
  exact if_pos h

lemma backtrack_nil (cands : CandSet) (maxr : Nat) (used : Finset String)
    (current : Assn) (results : List Assn) (h : ¬ maxr ≤ results.length) :
    backtrack cands maxr [] used current results = results ++ [current] := by
  rw [backtrack, if_neg h]

lemma backtrack_cons (cands : CandSet) (maxr : Nat) (r : Slot) (rest : List Slot)
    (used : Finset String) (current : Assn) (results : List Assn)
    (h : ¬ maxr ≤ results.length) :
    backtrack cands maxr (r :: rest) used current results =
      (cands.get r).foldl
        (fun acc option =>
          if option.toFinset ∩ used = ∅ then
            backtrack cands maxr rest (used ∪ option.toFinset)
              (current.set r (Sel.tup option)) acc
          else acc) results := by
  rw [backtrack, if_neg h]

lemma backtrack_length_le (cands : CandSet) (maxr : Nat) :
    ∀ (rounds : List Slot) (used : Finset String) (current : Assn)
      (results : List Assn), results.length ≤ maxr →
      (backtrack cands maxr rounds used current results).length ≤ maxr := by
  intro rounds
  induction rounds with
  | nil =>
    intro used current results hlen
    by_cases hc : maxr ≤ results.length
    · rw [backtrack_capped _ _ _ _ _ _ hc]; exact hlen
    · rw [backtrack_nil _ _ _ _ _ hc]
      simp only [List.length_append, List.length_singleton]
      omega
  | cons r rest ih =>
    intro used current results hlen
    by_cases hc : maxr ≤ results.length
    · rw [backtrack_capped _ _ _ _ _ _ hc]; exact hlen
    · rw [backtrack_cons _ _ _ _ _ _ _ hc]
      refine foldl_preserve (P := fun acc : List Assn => acc.length ≤ maxr) ?_ hlen
      intro acc o _ hacc
      dsimp only
      split_ifs
      · exact ih _ _ acc hacc
      · exact hacc

/-- A complete valid lineup: all 8 slots hold a tuple drawn from that slot's
candidate list, and the invariant `DisjointInv` holds. -/
def CompleteValid (cands : CandSet) (a : Assn) : Prop :=
  (∀ r : Slot, ∃ o, a.get r = some (Sel.tup o) ∧ o ∈ cands.get r) ∧ DisjointInv a

lemma backtrack_mem_valid (cands : CandSet) (maxr : Nat) :
    ∀ (rounds : List Slot) (used : Finset String) (current : Assn)
      (results : List Assn),
      (∀ a ∈ results, CompleteValid cands a) →
      (∀ r : Slot, r ∉ rounds → ∃ o, current.get r = some (Sel.tup o) ∧ o ∈ cands.get r) →
      (∀ r o, current.get r = some o → ∀ p ∈ selPlayers o, p ∈ used) →
      DisjointInv current →
      ∀ a ∈ backtrack cands maxr rounds used current results, CompleteValid cands a := by
  intro rounds
  induction rounds with
  | nil =>
    intro used current results hres hfull _ hdisj a ha
    by_cases hc : maxr ≤ results.length
    · rw [backtrack_capped _ _ _ _ _ _ hc] at ha; exact hres a ha
    · rw [backtrack_nil _ _ _ _ _ hc] at ha
      rcases List.mem_append.mp ha with ha | ha
      · exact hres a ha
      · rcases List.mem_singleton.mp ha with rfl
        exact ⟨fun r => hfull r (List.not_mem_nil r), hdisj⟩
  | cons r rest ih =>
    intro used current results hres hfull hused hdisj a ha
    by_cases hc : maxr ≤ results.length
    · rw [backtrack_capped _ _ _ _ _ _ hc] at ha; exact hres a ha
    · rw [backtrack_cons _ _ _ _ _ _ _ hc] at ha
      refine foldl_preserve (P := fun acc => ∀ a ∈ acc, CompleteValid cands a)
        ?_ hres a ha
      intro acc o ho hacc b hb
      split_ifs at hb with hdj
      · have hdj' : ∀ p ∈ o, p ∉ used := by
          intro p hp hpu
          have : p ∈ o.toFinset ∩ used :=
            Finset.mem_inter.mpr ⟨List.mem_toFinset.mpr hp, hpu⟩
          rw [hdj] at this
          exact Finset.not_mem_empty p this
        refine ih _ _ acc hacc ?_ ?_ ?_ b hb
        · intro s hs
          rw [Assn.get_set]
          by_cases hsr : s = r
          · rw [if_pos hsr]
            subst hsr
            exact ⟨o, rfl, ho⟩
          · rw [if_neg hsr]
            refine hfull s ?_
            intro hmem
            rcases List.mem_cons.mp hmem with h | h
            · exact hsr h
            · exact hs h
        · intro s o' hso' p hp
          rw [Assn.get_set] at hso'
          by_cases hsr : s = r
          · rw [if_pos hsr] at hso'
            cases hso'
            exact Finset.mem_union_right _ (List.mem_toFinset.mpr hp)
          · rw [if_neg hsr] at hso'
            exact Finset.mem_union_left _ (hused s o' hso' p hp)
        · intro r1 r2 hne o1 o2 h1 h2 p hp1 hp2
          rw [Assn.get_set] at h1 h2
          by_cases e1 : r1 = r <;> by_cases e2 : r2 = r
          · exact hne (e1.trans e2.symm)
          · rw [if_pos e1] at h1
            rw [if_neg e2] at h2
            cases h1
            exact hdj' p hp1 (hused r2 o2 h2 p hp2)
          · rw [if_neg e1] at h1
            rw [if_pos e2] at h2
            cases h2
            exact hdj' p hp2 (hused r1 o1 h1 p hp1)
          · rw [if_neg e1] at h1
            rw [if_neg e2] at h2
            exact hdisj r1 r2 hne o1 o2 h1 h2 p hp1 hp2
      · exact hacc b hb

/-- Every result of `valid_lineups` is a complete valid lineup. -/
lemma valid_lineups_valid (cands : CandSet) (maxr : Nat) :
    ∀ a ∈ valid_lineups cands maxr, CompleteValid cands a := by
  refine backtrack_mem_valid cands maxr roundsList ∅ emptyAssn []
    (by intro a ha; cases ha) ?_ ?_ disjointInv_empty
  · intro r hr
    exact absurd (mem_roundsList r) hr
  · intro r o ho
    rw [emptyAssn_get] at ho
    cases ho

/-- If some slot's candidate list is empty, any `backtrack` call that still
has that slot pending returns its results unchanged. -/
lemma backtrack_empty_slot (cands : CandSet) (maxr : Nat) {r0 : Slot}
    (h0 : cands.get r0 = []) :
    ∀ (rounds : List Slot), r0 ∈ rounds →
      ∀ (used : Finset String) (current : Assn) (results : List Assn),
        backtrack cands maxr rounds used current results = results := by
  intro rounds
  induction rounds with
  | nil => intro h; cases h
  | cons r rest ih =>
    intro hmem used current results
    by_cases hc : maxr ≤ results.length
    · exact backtrack_capped _ _ _ _ _ _ hc
    · rw [backtrack_cons _ _ _ _ _ _ _ hc]
      rcases List.mem_cons.mp hmem with rfl | hmem'
      · rw [h0]; rfl
      · refine foldl_preserve (P := fun acc => acc = results) ?_ rfl
        intro acc o _ hacc
        split_ifs
        · rw [ih hmem' _ _ acc, hacc]
        · exact hacc

/-- If some slot's candidate list is empty the enumerator returns no lineups. -/
lemma valid_lineups_empty_slot (cands : CandSet) (maxr : Nat) {r0 : Slot}
    (h0 : cands.get r0 = []) : valid_lineups cands maxr = [] :=
  backtrack_empty_slot cands maxr h0 roundsList (mem_roundsList r0) ∅ emptyAssn []

lemma cand_get_s1 (ps : List Player) :
    (generate_candidates ps).get .S1 =
      (ps.filter fun p => eligible_s1 p.2).map fun p => [p.1] :=
  generate_candidates_s1 ps

lemma cand_get_s2 (ps : List Player) :
    (generate_candidates ps).get .S2 =
      (ps.filter fun p => eligible_s2 p.2).map fun p => [p.1] :=
  generate_candidates_s2 ps

lemma cand_get_s3 (ps : List Player) :
    (generate_candidates ps).get .S3 =
      (ps.filter fun p => eligible_s3 p.2).map fun p => [p.1] :=
  generate_candidates_s3 ps

lemma cand_get_d1 (ps : List Player) :
    (generate_candidates ps).get .D1 =
      ((combinations2 ps).filter fun q => eligible_d1 q.1.2 q.2.2).map pairNames :=
  generate_candidates_d1 ps

lemma cand_get_d2 (ps : List Player) :
    (generate_candidates ps).get .D2 =
      ((combinations2 ps).filter fun q => eligible_d2_d3 q.1.2 q.2.2).map pairNames :=
  generate_candidates_d2 ps

lemma cand_get_d3 (ps : List Player) :
    (generate_candidates ps).get .D3 =
      ((combinations2 ps).filter fun q => eligible_d2_d3 q.1.2 q.2.2).map pairNames :=
  generate_candidates_d3 ps

lemma cand_get_d4 (ps : List Player) :
    (generate_candidates ps).get .D4 =
      ((combinations2 ps).filter fun q => eligible_d4_d5 q.1.2 q.2.2).map pairNames :=
  generate_candidates_d4 ps

lemma cand_get_d5 (ps : List Player) :
    (generate_candidates ps).get .D5 =
      ((combinations2 ps).filter fun q => eligible_d4_d5 q.1.2 q.2.2).map pairNames :=
  generate_candidates_d5 ps

-- ---- Soundness / completeness helpers for `generate_candidates` ----

lemma singles_sound (pred : ℚ → Bool) (ps : List Player) (o : List String)
    (h : o ∈ (ps.filter fun p => pred p.2).map fun p => [p.1]) :
    ∃ p ∈ ps, pred p.2 = true ∧ o = [p.1] := by
  rcases List.mem_map.mp h with ⟨p, hp, rfl⟩
  rcases List.mem_filter.mp hp with ⟨hmem, hpred⟩
  exact ⟨p, hmem, hpred, rfl⟩

lemma singles_nodup (pred : ℚ → Bool) (ps : List Player)
    (h : (ps.map Prod.fst).Nodup) :
    ((ps.filter fun p => pred p.2).map fun p => [p.1]).Nodup := by
  have h1 : ((ps.filter fun p => pred p.2).map Prod.fst).Nodup :=
    List.Nodup.sublist ((List.filter_sublist ps).map Prod.fst) h
  have h2 : ((ps.filter fun p => pred p.2).map fun p => [p.1]) =
      ((ps.filter fun p => pred p.2).map Prod.fst).map fun n => [n] := by
    rw [List.map_map]
    rfl
  rw [h2]
  refine h1.map ?_
  intro a b hab
  injection hab

lemma count_one_of_nodup_mem {α : Type _} [BEq α] [LawfulBEq α] {a : α} :
    ∀ {l : List α}, l.Nodup → a ∈ l → l.count a = 1 := by
  intro l
  induction l with
  | nil => intro _ h; cases h
  | cons x xs ih =>
    intro nd hmem
    rcases List.nodup_cons.mp nd with ⟨hx, hxs⟩
    rcases List.mem_cons.mp hmem with rfl | hmem2
    · rw [List.count_cons_self, List.count_eq_zero.mpr hx]
    · have hne : a ≠ x := by rintro rfl; exact hx hmem2
      rw [List.count_cons_of_ne hne]
      exact ih hxs hmem2

lemma singles_count (pred : ℚ → Bool) (ps : List Player)
    (h : (ps.map Prod.fst).Nodup) (p : Player) (hp : p ∈ ps)
    (hpred : pred p.2 = true) :
    ((ps.filter fun p => pred p.2).map fun p => [p.1]).count [p.1] = 1 :=
  count_one_of_nodup_mem (singles_nodup pred ps h)
    (List.mem_map.mpr ⟨p, List.mem_filter.mpr ⟨hp, hpred⟩, rfl⟩)

lemma doubles_sound (pred : ℚ → ℚ → Bool) (ps : List Player) (o : List String)
    (h : o ∈ ((combinations2 ps).filter fun q => pred q.1.2 q.2.2).map pairNames) :
    ∃ q ∈ combinations2 ps, pred q.1.2 q.2.2 = true ∧ o = pairNames q := by
  rcases List.mem_map.mp h with ⟨q, hq, rfl⟩
  rcases List.mem_filter.mp hq with ⟨hmem, hpred⟩
  exact ⟨q, hmem, hpred, rfl⟩

lemma doubles_nodup (pred : ℚ → ℚ → Bool) (ps : List Player)
    (h : (ps.map Prod.fst).Nodup) :
    (((combinations2 ps).filter fun q => pred q.1.2 q.2.2).map pairNames).Nodup := by
  have h2 : ((combinations2 ps).map fun q => (q.1.1, q.2.1)).Nodup := by
    have := combinations2_nodup h
    rwa [combinations2_map] at this
  have h3 : (((combinations2 ps).filter fun q => pred q.1.2 q.2.2).map
      fun q => (q.1.1, q.2.1)).Nodup :=
    List.Nodup.sublist ((List.filter_sublist _).map _) h2
  have h4 : ((combinations2 ps).filter fun q => pred q.1.2 q.2.2).map pairNames =
      (((combinations2 ps).filter fun q => pred q.1.2 q.2.2).map
        fun q => (q.1.1, q.2.1)).map fun nm => [nm.1, nm.2] := by
    rw [List.map_map]
    rfl
  rw [h4]
  refine h3.map ?_
  rintro ⟨a, b⟩ ⟨c, d⟩ hab
  simp only [List.cons.injEq, and_true] at hab
  simp [hab.1, hab.2]

lemma doubles_count (pred : ℚ → ℚ → Bool) (ps : List Player)
    (h : (ps.map Prod.fst).Nodup) (q : Player × Player)
    (hq : q ∈ combinations2 ps) (hpred : pred q.1.2 q.2.2 = true) :
    (((combinations2 ps).filter fun q => pred q.1.2 q.2.2).map pairNames).count
      (pairNames q) = 1 :=
  count_one_of_nodup_mem (doubles_nodup pred ps h)
    (List.mem_map.mpr ⟨q, List.mem_filter.mpr ⟨hq, hpred⟩, rfl⟩)

-- ---- Concrete inputs used in witnesses and counterexamples ----

/-- A candidate set with a single disjoint candidate per slot. -/
def wCands : CandSet :=
  ⟨[["a"]], [["b"]], [["c"]], [["d", "e"]], [["f", "g"]],
   [["h", "i"]], [["j", "k"]], [["l", "m"]]⟩

/-- The unique complete lineup of `wCands`. -/
def wLineup : Assn :=
  ⟨some (.tup ["a"]), some (.tup ["b"]), some (.tup ["c"]), some (.tup ["d", "e"]),
   some (.tup ["f", "g"]), some (.tup ["h", "i"]), some (.tup ["j", "k"]),
   some (.tup ["l", "m"])⟩

/-- The concrete roster of the spec's §8 scenario. -/
def ps0 : List Player := [("Amy", 4.0), ("Beth", 4.5), ("Cam", 3.5), ("Dee", 3.0)]

/-- Roster where two D1 pairs share the player Amy. -/
def roster3 : List Player := [("Amy", 4.0), ("Beth", 4.5), ("Cam", 4.0)]

lemma cands3_eval : generate_candidates roster3 =
    ⟨[["Amy"], ["Beth"], ["Cam"]], [], [],
     [["Amy", "Beth"], ["Amy", "Cam"], ["Beth", "Cam"]], [], [], [], []⟩ := by
  norm_num [roster3, generate_candidates, combinations2, doublesStep, List.filter,
    eligible_s1, eligible_s2, eligible_s3, eligible_d1, eligible_d2_d3, eligible_d4_d5]

/-- State reached by selecting the pair (Amy, Beth) for D1. -/
def st3 : Assn :=
  applyOps (generate_candidates roster3) [.select .D1 ["Amy", "Beth"]] emptyAssn

/-- A one-player roster whose only candidate anywhere is S1 = (Amy,). -/
def roster7 : List Player := [("Amy", 4.0)]

lemma cands7_eval : generate_candidates roster7 =
    ⟨[["Amy"]], [], [], [], [], [], [], []⟩ := by
  norm_num [roster7, generate_candidates, combinations2, doublesStep, List.filter,
    eligible_s1, eligible_s2, eligible_s3, eligible_d1, eligible_d2_d3, eligible_d4_d5]

/-- State reached by selecting (Amy,) for S1. -/
def st7 : Assn :=
  applyOps (generate_candidates roster7) [.select .S1 ["Amy"]] emptyAssn

/-- A candidate set with two S1 options. -/
def cands6 : CandSet := ⟨[["a"], ["b"]], [], [], [], [], [], [], []⟩

/-- State in which S1 already holds the candidate ("a",). -/
def st6 : Assn := ⟨some (.tup ["a"]), none, none, none, none, none, none, none⟩

-- ---- Claim theorems ----

/-- C1: for every sequence of interactive operations (assigning an available
candidate to a slot, clearing a slot, resetting all selections) starting from
the empty assignment, the resulting assignment satisfies the disjointness
invariant: no two distinct slots hold candidates whose player sets
intersect. -/
theorem C1_interactive_disjoint_invariant (cands : CandSet) (ops : List Op) :
    DisjointInv (applyOps cands ops emptyAssn) :=
  disjointInv_applyOps cands ops disjointInv_empty

/-- C2: every assignment returned by `valid_lineups` maps all 8 slots to a
candidate drawn from that slot's candidate list, and the player sets of the
chosen candidates are pairwise disjoint. -/
theorem C2_valid_lineups_sound (cands : CandSet) (maxr : Nat) (a : Assn)
    (ha : a ∈ valid_lineups cands maxr) :
    (∀ r : Slot, ∃ o, a.get r = some (Sel.tup o) ∧ o ∈ cands.get r) ∧
      DisjointInv a :=
  valid_lineups_valid cands maxr a ha

theorem C2_witness :
    wLineup ∈ valid_lineups wCands 200 ∧
      ((∀ r : Slot, ∃ o, wLineup.get r = some (Sel.tup o) ∧ o ∈ wCands.get r) ∧
        DisjointInv wLineup) :=
  ⟨by decide, C2_valid_lineups_sound wCands 200 wLineup (by decide)⟩

/-- C3 (counterexample): the claim says the availability check excludes the
target slot's current occupant, so that reassigning D1 (holding (Amy, Beth))
to (Amy, Cam) — which shares a player only with D1's own occupant — must
succeed.  In the code `get_used_players` includes the target slot's occupant:
(Amy, Cam) is a D1 candidate, yet `is_available` rejects it and it is
filtered out of `available_options` for D1. -/
theorem C3_counterexample :
    st3.get .D1 = some (.tup ["Amy", "Beth"]) ∧
    get_used_players st3 = {"Amy", "Beth"} ∧
    ["Amy", "Cam"] ∈ (generate_candidates roster3).get .D1 ∧
    is_available st3 (.tup ["Amy", "Cam"]) = false ∧
    ["Amy", "Cam"] ∉ available_options (generate_candidates roster3) .D1 st3 := by
  simp only [st3, applyOps, List.foldl_cons, List.foldl_nil, cands3_eval]
  decide

/-- C3 (amended): the availability check counts every assigned slot's
players, including the target slot's current occupant; an option is among
the offered `available_options` for a slot iff it is a candidate of that
slot and shares no player with any assignment, the target slot's own
included — so reassigning a slot to a candidate overlapping its current
occupant is rejected rather than permitted. -/
theorem C3_reassign_needs_full_disjointness (cands : CandSet) (st : Assn)
    (r : Slot) (o : List String) :
    (o ∈ available_options cands r st ↔
      o ∈ cands.get r ∧
        ∀ p ∈ o, ¬ ∃ s oc, st.get s = some oc ∧ p ∈ selPlayers oc) ∧
    (∀ oc p, st.get r = some oc → p ∈ selPlayers oc → p ∈ o →
      o ∉ available_options cands r st) := by
  have hmem : o ∈ available_options cands r st ↔
      o ∈ cands.get r ∧ ∀ p ∈ o, p ∉ get_used_players st := by
    unfold available_options
    rw [List.mem_filter, is_available_iff]
    simp only [selPlayers]
  constructor
  · rw [hmem]
    constructor
    · rintro ⟨h1, h2⟩
      refine ⟨h1, fun p hp hex => h2 p hp ?_⟩
      rcases hex with ⟨s, oc, hs, hpo⟩
      exact used_of_assigned hs hpo
    · rintro ⟨h1, h2⟩
      refine ⟨h1, fun p hp hpu => h2 p hp ?_⟩
      exact (mem_get_used_players st p).mp hpu
  · intro oc p hoc hpo hpin hav
    exact ((hmem.mp hav).2 p hpin) (used_of_assigned hoc hpo)

theorem C3_amended_witness :
    ["Amy", "Cam"] ∉ available_options (generate_candidates roster3) .D1 st3 := by
  have h1 : st3.get .D1 = some (.tup ["Amy", "Beth"]) := by
    simp only [st3, applyOps, List.foldl_cons, List.foldl_nil, cands3_eval]
    decide
  exact (C3_reassign_needs_full_disjointness (generate_candidates roster3) st3
    .D1 ["Amy", "Cam"]).2 (.tup ["Amy", "Beth"]) "Amy" h1 (by decide) (by decide)

/-- C4: `generate_candidates` is sound and complete per slot.  Each slot's
list is exactly the roster (singles) or `combinations(roster, 2)` (doubles)
filtered by that slot's eligibility predicate, in generation order; hence
every listed candidate satisfies the slot's predicate, and (for a roster
with distinct names) every qualifying player or pair appears exactly once
per qualifying slot. -/
theorem C4_generate_candidates_sound_complete (ps : List Player)
    (hnd : (ps.map Prod.fst).Nodup) :
    ((generate_candidates ps).get .S1 =
        (ps.filter fun p => eligible_s1 p.2).map fun p => [p.1]) ∧
    ((generate_candidates ps).get .S2 =
        (ps.filter fun p => eligible_s2 p.2).map fun p => [p.1]) ∧
    ((generate_candidates ps).get .S3 =
        (ps.filter fun p => eligible_s3 p.2).map fun p => [p.1]) ∧
    ((generate_candidates ps).get .D1 =
        ((combinations2 ps).filter fun q => eligible_d1 q.1.2 q.2.2).map pairNames) ∧
    ((generate_candidates ps).get .D2 =
        ((combinations2 ps).filter fun q => eligible_d2_d3 q.1.2 q.2.2).map pairNames) ∧
    ((generate_candidates ps).get .D3 =
        ((combinations2 ps).filter fun q => eligible_d2_d3 q.1.2 q.2.2).map pairNames) ∧
    ((generate_candidates ps).get .D4 =
        ((combinations2 ps).filter fun q => eligible_d4_d5 q.1.2 q.2.2).map pairNames) ∧
    ((generate_candidates ps).get .D5 =
        ((combinations2 ps).filter fun q => eligible_d4_d5 q.1.2 q.2.2).map pairNames) ∧
    (∀ o ∈ (generate_candidates ps).get .S1,
        ∃ p ∈ ps, eligible_s1 p.2 = true ∧ o = [p.1]) ∧
    (∀ o ∈ (generate_candidates ps).get .S2,
        ∃ p ∈ ps, eligible_s2 p.2 = true ∧ o = [p.1]) ∧
    (∀ o ∈ (generate_candidates ps).get .S3,
        ∃ p ∈ ps, eligible_s3 p.2 = true ∧ o = [p.1]) ∧
    (∀ o ∈ (generate_candidates ps).get .D1,
        ∃ q ∈ combinations2 ps, eligible_d1 q.1.2 q.2.2 = true ∧ o = pairNames q) ∧
    (∀ o ∈ (generate_candidates ps).get .D2,
        ∃ q ∈ combinations2 ps, eligible_d2_d3 q.1.2 q.2.2 = true ∧ o = pairNames q) ∧
    (∀ o ∈ (generate_candidates ps).get .D3,
        ∃ q ∈ combinations2 ps, eligible_d2_d3 q.1.2 q.2.2 = true ∧ o = pairNames q) ∧
    (∀ o ∈ (generate_candidates ps).get .D4,
        ∃ q ∈ combinations2 ps, eligible_d4_d5 q.1.2 q.2.2 = true ∧ o = pairNames q) ∧
    (∀ o ∈ (generate_candidates ps).get .D5,
        ∃ q ∈ combinations2 ps, eligible_d4_d5 q.1.2 q.2.2 = true ∧ o = pairNames q) ∧
    (∀ p ∈ ps, eligible_s1 p.2 = true →
        ((generate_candidates ps).get .S1).count [p.1] = 1) ∧
    (∀ p ∈ ps, eligible_s2 p.2 = true →
        ((generate_candidates ps).get .S2).count [p.1] = 1) ∧
    (∀ p ∈ ps, eligible_s3 p.2 = true →
        ((generate_candidates ps).get .S3).count [p.1] = 1) ∧
    (∀ q ∈ combinations2 ps, eligible_d1 q.1.2 q.2.2 = true →
        ((generate_candidates ps).get .D1).count (pairNames q) = 1) ∧
    (∀ q ∈ combinations2 ps, eligible_d2_d3 q.1.2 q.2.2 = true →
        ((generate_candidates ps).get .D2).count (pairNames q) = 1) ∧
    (∀ q ∈ combinations2 ps, eligible_d2_d3 q.1.2 q.2.2 = true →
        ((generate_candidates ps).get .D3).count (pairNames q) = 1) ∧
    (∀ q ∈ combinations2 ps, eligible_d4_d5 q.1.2 q.2.2 = true →
        ((generate_candidates ps).get .D4).count (pairNames q) = 1) ∧
    (∀ q ∈ combinations2 ps, eligible_d4_d5 q.1.2 q.2.2 = true →
        ((generate_candidates ps).get .D5).count (pairNames q) = 1) := by
  refine ⟨cand_get_s1 ps, cand_get_s2 ps,
    cand_get_s3 ps, cand_get_d1 ps,
    cand_get_d2 ps, cand_get_d3 ps,
    cand_get_d4 ps, cand_get_d5 ps,
    ?_, ?_, ?_, ?_, ?_, ?_, ?_, ?_, ?_, ?_, ?_, ?_, ?_, ?_, ?_, ?_⟩
  · rw [cand_get_s1]; exact singles_sound _ ps
  · rw [cand_get_s2]; exact singles_sound _ ps
  · rw [cand_get_s3]; exact singles_sound _ ps
  · rw [cand_get_d1]; exact doubles_sound _ ps
  · rw [cand_get_d2]; exact doubles_sound _ ps
  · rw [cand_get_d3]; exact doubles_sound _ ps
  · rw [cand_get_d4]; exact doubles_sound _ ps
  · rw [cand_get_d5]; exact doubles_sound _ ps
  · rw [cand_get_s1]; exact fun p hp hel => singles_count _ ps hnd p hp hel
  · rw [cand_get_s2]; exact fun p hp hel => singles_count _ ps hnd p hp hel
  · rw [cand_get_s3]; exact fun p hp hel => singles_count _ ps hnd p hp hel
  · rw [cand_get_d1]; exact fun q hq hel => doubles_count _ ps hnd q hq hel
  · rw [cand_get_d2]; exact fun q hq hel => doubles_count _ ps hnd q hq hel
  · rw [cand_get_d3]; exact fun q hq hel => doubles_count _ ps hnd q hq hel
  · rw [cand_get_d4]; exact fun q hq hel => doubles_count _ ps hnd q hq hel
  · rw [cand_get_d5]; exact fun q hq hel => doubles_count _ ps hnd q hq hel

theorem C4_witness :
    (ps0.map Prod.fst).Nodup ∧
      (generate_candidates ps0).get .S1 =
        (ps0.filter fun p => eligible_s1 p.2).map fun p => [p.1] :=
  ⟨by decide, (C4_generate_candidates_sound_complete ps0 (by decide)).1⟩

/-- C5: `valid_lineups` returns at most `m` results, and the cap is checked
at every entry of the recursive `backtrack`, so a call entered with `m`
results already recorded returns them unchanged (no recursion proceeds). -/
theorem C5_result_cap (cands : CandSet) (m : Nat) :
    (valid_lineups cands m).length ≤ m ∧
    ∀ (rounds : List Slot) (used : Finset String) (current : Assn)
      (results : List Assn), m ≤ results.length →
      backtrack cands m rounds used current results = results :=
  ⟨backtrack_length_le cands m roundsList ∅ emptyAssn [] (Nat.zero_le m),
   fun rounds used current results h =>
     backtrack_capped cands m rounds used current results h⟩

theorem C5_witness :
    (valid_lineups wCands 0).length ≤ 0 ∧
      backtrack wCands 0 roundsList ∅ emptyAssn [] = [] :=
  ⟨(C5_result_cap wCands 0).1,
   (C5_result_cap wCands 0).2 roundsList ∅ emptyAssn [] (by decide)⟩

/-- C6 (counterexample): the claim says assign-then-unassign restores the
pre-assign state for every assignable candidate.  When S1 already holds
("a",) and the assignable candidate ("b",) is assigned and then S1 is
cleared, the result is the empty slot, not the original occupant. -/
theorem C6_counterexample :
    st6 = applyOps cands6 [.select .S1 ["a"]] emptyAssn ∧
    ["b"] ∈ cands6.get .S1 ∧
    is_available st6 (.tup ["b"]) = true ∧
    applyOps cands6 [.select .S1 ["b"], .clear .S1] st6 ≠ st6 := by
  decide

/-- C6 (amended): if the slot is unassigned beforehand, assigning a
candidate to it and then immediately clearing it yields the state before
the assign; clearing deletes the slot's entry outright, so a previously
held occupant is not restored. -/
theorem C6_assign_unassign_roundtrip (cands : CandSet) (st : Assn) (r : Slot)
    (o : List String) (h : st.get r = none) :
    applyOps cands [.select r o, .clear r] st = st := by
  have hstep1 : step cands st (.select r o) = st ∨
      step cands st (.select r o) = st.set r (Sel.tup o) := by
    simp only [step]
    split_ifs with hg hs
    · rw [hs] at h; cases h
    · exact Or.inr rfl
    · exact Or.inl rfl
  show step cands (step cands st (.select r o)) (.clear r) = st
  rcases hstep1 with h1 | h1 <;> rw [h1]
  · simp only [step, h, Option.isSome_none, Bool.false_eq_true, if_false]
  · simp only [step]
    rw [Assn.get_set, if_pos rfl]
    simp only [Option.isSome_some, if_true]
    refine Assn.ext_get fun s => ?_
    rw [Assn.get_erase, Assn.get_set]
    by_cases hsr : s = r
    · rw [if_pos hsr, hsr, h]
    · rw [if_neg hsr, if_neg hsr]

theorem C6_roundtrip_witness :
    applyOps cands6 [.select .S1 ["a"], .clear .S1] emptyAssn = emptyAssn :=
  C6_assign_unassign_roundtrip cands6 emptyAssn .S1 ["a"] rfl

/-- C7: the claim (and the code's own deselect branch with its
"Click to deselect" help) says re-submitting the slot's current selection
clears the slot.  But the currently held option never passes
`is_available` — its own players are in the used set — so it is filtered
out of `available_options`, its button is never rendered, and the deselect
branch is unreachable: re-submitting (Amy,) to S1 leaves the state
unchanged instead of clearing S1. -/
theorem C7_reselect_unreachable :
    st7.get .S1 = some (.tup ["Amy"]) ∧
    available_options (generate_candidates roster7) .S1 st7 = [] ∧
    step (generate_candidates roster7) st7 (.select .S1 ["Amy"]) = st7 := by
  simp only [st7, applyOps, List.foldl_cons, List.foldl_nil, cands7_eval]
  decide

/-- C8: for every roster, the candidate lists produced for D2 and D3 are
identical (same elements, same order), and likewise those for D4 and D5. -/
theorem C8_shared_slot_lists_identical (ps : List Player) :
    (generate_candidates ps).get .D2 = (generate_candidates ps).get .D3 ∧
    (generate_candidates ps).get .D4 = (generate_candidates ps).get .D5 := by
  constructor
  · show (generate_candidates ps).d2 = (generate_candidates ps).d3
    rw [generate_candidates_d2, generate_candidates_d3]
  · show (generate_candidates ps).d4 = (generate_candidates ps).d5
    rw [generate_candidates_d4, generate_candidates_d5]

/-- C9: if any slot's candidate list is empty — in particular for the empty
roster, where every slot's list is empty — the enumerator returns the empty
result list (it is a total function, so no error is possible). -/
theorem C9_empty_candidates (m : Nat) :
    (∀ (cands : CandSet) (r : Slot), cands.get r = [] →
      valid_lineups cands m = []) ∧
    valid_lineups (generate_candidates []) m = [] :=
  ⟨fun cands _ h => valid_lineups_empty_slot cands m h,
   @valid_lineups_empty_slot (generate_candidates []) m .S1 rfl⟩

theorem C9_witness :
    (generate_candidates []).get .S1 = [] ∧
      valid_lineups (generate_candidates []) 200 = [] :=
  ⟨rfl, (C9_empty_candidates 200).1 (generate_candidates []) .S1 rfl⟩

/-- C10: `get_used_players` and `is_available` are total over both value
shapes: a stored bare string contributes that single name to the used set
and a stored tuple contributes its elements; a bare-string option is
available iff its name is not used, a tuple option iff its element set is
disjoint from the used set. -/
theorem C10_used_players_total (st : Assn) :
    (∀ p, p ∈ get_used_players st ↔
      ∃ r o, st.get r = some o ∧ p ∈ selPlayers o) ∧
    (∀ s, is_available st (Sel.str s) = true ↔ s ∉ get_used_players st) ∧
    (∀ l, is_available st (Sel.tup l) = true ↔
      ∀ p ∈ l, p ∉ get_used_players st) := by
  refine ⟨mem_get_used_players st, ?_, ?_⟩
  · intro s
    simp [is_available]
  · intro l
    have h := is_available_iff st (Sel.tup l)
    simpa [selPlayers] using h

end MHTTF
